import Mathlib

/-!
Shallow embedding of the playbook maintenance engine of `src/hooks/common.ts`:
the scoring/merge algorithm (`updatePlaybookData`, `generateKeypointName`),
the multi-round reflective extraction loop (`extractKeypoints`), the session
gate (`isFirstMessage` / `markSession` / `clearSession`) and the context
formatter (`formatPlaybook`).  JavaScript strings are Lean `String`s; the
JS string primitives used by the code (`split`, `parseInt`, `trim`,
`padStart`, `replace`, `startsWith`, decimal `String(n)`) are embedded as
executable functions on `List Char`.
-/

namespace ClaudeMemoria

/-- JS whitespace characters relevant to `trim` / `parseInt`
(ASCII subset: space, tab, LF, VT, FF, CR). -/
def isJsSpace (c : Char) : Bool :=
  c == ' ' || c == '\t' || c == '\n' || c == '\x0b' || c == '\x0c' || c == '\r'

/-- Decimal digit test used by JS `parseInt(_, 10)`. -/
def isDigitChar (c : Char) : Bool :=
  48 ≤ c.toNat && c.toNat ≤ 57

/-- Numeric value of a decimal digit character. -/
def digitToNat (c : Char) : Nat := c.toNat - 48

/-- Value of a list of decimal digit characters (most significant first). -/
def parseDigitsVal (l : List Char) : Nat :=
  l.foldl (fun a c => a * 10 + digitToNat c) 0

/-- The longest digit prefix, `none` when it is empty (JS `NaN`). -/
def parseUnsignedDigits (l : List Char) : Option Nat :=
  let d := l.takeWhile isDigitChar
  if d = [] then none else some (parseDigitsVal d)

/-- Number of halvings needed to bring `m` below `2^53` (the binade
exponent of a large integer relative to the 53-bit significand range);
the fuel only bounds the recursion depth and `1100` covers every value
below the IEEE-754 double overflow threshold. -/
def flExpAux : Nat → Nat → Nat
  | 0, _ => 0
  | fuel + 1, m => if m < 2 ^ 53 then 0 else flExpAux fuel (m / 2) + 1

/-- Rounding of an integer to the nearest IEEE-754 binary64 value
(round to nearest, ties to even) — JS numbers are doubles, so every
arithmetic result and every `parseInt` result passes through this.
Integers up to `2^53` are exact; above, the value is rounded to the
nearest multiple of `2^e` where the quotient is a 53-bit significand.
(Overflow to `Infinity` — integers of 309+ digits — is not modeled;
every theorem below stays at or below `2^53`.) -/
def flRound (n : Nat) : Nat :=
  if n ≤ 2 ^ 53 then n
  else
    let e := flExpAux 1100 n
    let q := n / 2 ^ e
    let r := n % 2 ^ e
    if 2 * r < 2 ^ e then q * 2 ^ e
    else if 2 ^ e < 2 * r then (q + 1) * 2 ^ e
    else (if q % 2 = 0 then q else q + 1) * 2 ^ e

/-- Sign handling and digit prefix of JS `parseInt(s, 10)` after the
leading whitespace has been skipped.  The mathematical value of the
digit prefix is rounded to the nearest double, as JS does. -/
def jsParseIntAfterTrim : List Char → Option Int
  | [] => none
  | c :: rest =>
      if c = '-' then (parseUnsignedDigits rest).map (fun v => -(flRound v : Int))
      else if c = '+' then (parseUnsignedDigits rest).map (fun v => (flRound v : Int))
      else (parseUnsignedDigits (c :: rest)).map (fun v => (flRound v : Int))

/-- JS `parseInt(s, 10)`: skip leading whitespace, read an optional sign,
then the longest digit prefix; no digits at all means `NaN` (`none`). -/
def jsParseInt (l : List Char) : Option Int :=
  jsParseIntAfterTrim (l.dropWhile isJsSpace)

/-- Worker for JS `String.prototype.split` with a single-character
separator: `acc` holds the current segment reversed. -/
def splitAux (sep : Char) : List Char → List Char → List (List Char)
  | [], acc => [acc.reverse]
  | c :: cs, acc =>
      if c = sep then acc.reverse :: splitAux sep cs []
      else splitAux sep cs (c :: acc)

/-- JS `s.split(sep)` for a one-character separator. -/
def jsSplit (sep : Char) (l : List Char) : List (List Char) :=
  splitAux sep l []

/-- JS `s.trim()` (ASCII whitespace subset). -/
def jsTrim (l : List Char) : List Char :=
  ((l.dropWhile isJsSpace).reverse.dropWhile isJsSpace).reverse

/-- Decimal digit character of a value `0..9` (as produced by JS
`String(n)` for naturals). -/
def digitChar : Nat → Char
  | 0 => '0' | 1 => '1' | 2 => '2' | 3 => '3' | 4 => '4'
  | 5 => '5' | 6 => '6' | 7 => '7' | 8 => '8' | _ => '9'

/-- Fuelled decimal printer; the fuel only bounds the recursion depth. -/
def decReprAux : Nat → Nat → List Char
  | 0, _ => []
  | fuel + 1, n =>
      if n < 10 then [digitChar n]
      else decReprAux fuel (n / 10) ++ [digitChar (n % 10)]

/-- JS `String(n)` for a natural number: its decimal digits. -/
def decRepr (n : Nat) : List Char := decReprAux (n + 1) n

/-- JS `s.padStart(3, '0')`. -/
def padStart3 (l : List Char) : List Char :=
  if 3 ≤ l.length then l else List.replicate (3 - l.length) '0' ++ l

/-- JS `s.startsWith(pfx)`. -/
def strStartsWith (s pfx : String) : Bool :=
  pfx.data.isPrefixOf s.data

/-- JS `s.replace(pat, repl)` with a string pattern: replaces only the
first occurrence, scanning left to right. -/
def replaceOnce (pat repl : List Char) : List Char → List Char
  | [] => if pat.isPrefixOf ([] : List Char) then repl else []
  | c :: cs =>
      if pat.isPrefixOf (c :: cs) then repl ++ (c :: cs).drop pat.length
      else c :: replaceOnce pat repl cs

/-! ## Data model (`KeyPoint`, `Playbook`, `ExtractionResult`) -/

structure KeyPoint where
  name : String
  text : String
  score : Int
deriving Repr, DecidableEq

structure Playbook where
  version : String
  last_updated : Option String
  key_points : List KeyPoint
deriving Repr, DecidableEq

structure Evaluation where
  name : String
  rating : String
deriving Repr, DecidableEq

structure ExtractionResult where
  new_key_points : List String
  evaluations : List Evaluation
deriving Repr, DecidableEq

/-! ## `generateKeypointName` -/

/-- `parseInt(name.split('_')[1], 10)` from `generateKeypointName`. -/
def kpParsedNum (name : String) : Option Int :=
  jsParseInt ((jsSplit '_' name.data).getD 1 [])

/-- One step of the `maxNum` accumulation in `generateKeypointName`:
names starting with `kpt_` contribute their parsed numeric suffix via
`Math.max`; unparsable suffixes (`NaN`) and other names are skipped. -/
def maxKptStep (acc : Int) (name : String) : Int :=
  if strStartsWith name "kpt_" then
    match kpParsedNum name with
    | some v => max acc v
    | none => acc
  else acc

/-- The `maxNum` computed by `generateKeypointName` over the existing
names (the JS `Set` is embedded as the insertion-ordered list; `max` is
insensitive to order and duplicates). -/
def maxKptNum (names : List String) : Int :=
  names.foldl maxKptStep 0

/-- `generateKeypointName(existingNames)`:
`` `kpt_${String(maxNum + 1).padStart(3, '0')}` ``.  The increment
`maxNum + 1` is float64 addition, hence rounded by `flRound` (in
particular `2^53 + 1` rounds back to `2^53`).  The decimal printing is
exact, which matches JS `String(n)` for integer doubles below `1e21` —
all generated values theorems rely on are at or below `2^53`. -/
def generateKeypointName (existingNames : List String) : String :=
  String.mk
    ("kpt_".data ++ padStart3 (decRepr (flRound (maxKptNum existingNames + 1).toNat)))

/-! ## `updatePlaybookData` -/

/-- The insertion loop of `updatePlaybookData`: for each new text, skip
it when empty or already present in `existingTexts` (a snapshot taken
before the loop and never extended), otherwise append a fresh key point
whose name is generated from the growing `existingNames`. -/
def insertLoop (kps : List KeyPoint) (names texts : List String) :
    List String → List KeyPoint
  | [] => kps
  | t :: ts =>
      if t != "" && !(texts.contains t) then
        let name := generateKeypointName names
        insertLoop (kps ++ [⟨name, t, 0⟩]) (names ++ [name]) texts ts
      else insertLoop kps names texts ts

/-- The `ratingDelta` record of `updatePlaybookData`. -/
def ratingDeltaRec : List (String × Int) :=
  [("helpful", 1), ("harmful", -3), ("neutral", -1)]

/-- `ratingDelta[rating] || 0`. -/
def ratingDelta (rating : String) : Int :=
  (ratingDeltaRec.lookup rating).getD 0

/-- Update the first key point with the given name (helper for
`updateLast`). -/
def updateFirst (name : String) (f : KeyPoint → KeyPoint) :
    List KeyPoint → List KeyPoint
  | [] => []
  | kp :: rest =>
      if kp.name == name then f kp :: rest
      else kp :: updateFirst name f rest

/-- Update the last key point with the given name: `nameToKp` is a JS
`Map` built from the list, so a later entry overwrites an earlier one
with the same name, and the mutation lands on the last occurrence. -/
def updateLast (name : String) (f : KeyPoint → KeyPoint)
    (kps : List KeyPoint) : List KeyPoint :=
  (updateFirst name f kps.reverse).reverse

/-- One iteration of the evaluation loop of `updatePlaybookData`:
`rating = evalItem.rating || 'neutral'` (the empty string is falsy), and
a hit in `nameToKp` adds `ratingDelta[rating] || 0` to the score. -/
def applyEvaluation (kps : List KeyPoint) (e : Evaluation) : List KeyPoint :=
  let rating := if e.rating == "" then "neutral" else e.rating
  if kps.any (fun kp => kp.name == e.name) then
    updateLast e.name (fun kp => { kp with score := kp.score + ratingDelta rating }) kps
  else kps

/-- The whole evaluation loop. -/
def applyEvaluations (kps : List KeyPoint) (evals : List Evaluation) :
    List KeyPoint :=
  evals.foldl applyEvaluation kps

/-- `kp.score || 0` (an integer score of 0 is falsy, so this is the
identity on integers). -/
def scoreOrZero (s : Int) : Int := if s = 0 then 0 else s

/-- The state of `playbook.key_points` after the insertion loop and the
evaluation loop of `updatePlaybookData`, before pruning. -/
def mergeAndScore (playbook : Playbook) (er : ExtractionResult) :
    List KeyPoint :=
  let kps1 := insertLoop playbook.key_points
      (playbook.key_points.map KeyPoint.name)
      (playbook.key_points.map KeyPoint.text)
      er.new_key_points
  applyEvaluations kps1 er.evaluations

/-- `updatePlaybookData(playbook, extractionResult)`: insert new key
points, apply evaluations, then keep only `(kp.score || 0) > -5`. -/
def updatePlaybookData (playbook : Playbook) (er : ExtractionResult) :
    Playbook :=
  { playbook with
      key_points :=
        (mergeAndScore playbook er).filter
          (fun kp => decide (-5 < scoreOrZero kp.score)) }

/-! ## `extractKeypoints` (the multi-round reflection loop)

The remote call plus `parseReflectionResponse` is the I/O boundary: it is
embedded as a function `rounds : Nat → Option RoundResult` giving, for each
round index, either `none` (the API call threw) or `some r` (the parsed
structured response; a JSON parse failure yields an empty parsed object,
not an exception).  A `RoundResult` field that is absent from the parsed
JSON (and hence falsy in the `||` fallbacks) is `none`; a present array —
even an empty one — is truthy in JS and is `some`. -/

structure RoundResult where
  found_root_cause : Bool
  no_new_insights : Bool
  insights_depth : Option String
  insights : List String
  new_key_points : Option (List String)
  evaluations : Option (List Evaluation)
deriving Repr, DecidableEq

/-- `finalResult = { new_key_points: result.new_key_points ||
finalResult.new_key_points, evaluations: result.evaluations ||
finalResult.evaluations }`. -/
def applyRoundResult (fr : ExtractionResult) (r : RoundResult) :
    ExtractionResult :=
  { new_key_points := r.new_key_points.getD fr.new_key_points,
    evaluations := r.evaluations.getD fr.evaluations }

/-- `result.found_root_cause || result.no_new_insights ||
(round > 0 && result.insights_depth === 'sufficient')`. -/
def roundConverged (round : Nat) (r : RoundResult) : Bool :=
  r.found_root_cause || r.no_new_insights ||
    (decide (0 < round) && r.insights_depth == some "sufficient")

/-- The empty extraction result `{ new_key_points: [], evaluations: [] }`. -/
def emptyResult : ExtractionResult := { new_key_points := [], evaluations := [] }

/-- The `for (round = 0; round < minRounds; round++)` loop of
`extractKeypoints`, with `remaining = minRounds - round`.  Returns the
final `ExtractionResult` together with the number of API calls issued.
On an exception (`rounds round = none`): round 0 returns the empty
result, a later round breaks with the accumulated result.  On success
the convergence flag is computed, insights are accumulated, the running
result is overwritten field-wise, and the loop breaks when
`converged && round > 0`. -/
def extractRounds (rounds : Nat → Option RoundResult) :
    Nat → Nat → List String → ExtractionResult → ExtractionResult × Nat
  | _, 0, _, fr => (fr, 0)
  | round, remaining + 1, insights, fr =>
      match rounds round with
      | none =>
          if round = 0 then (emptyResult, 1) else (fr, 1)
      | some r =>
          let converged := roundConverged round r
          let insights2 := insights ++ r.insights
          let fr2 := applyRoundResult fr r
          if converged && decide (0 < round) then (fr2, 1)
          else
            let res := extractRounds rounds (round + 1) remaining insights2 fr2
            (res.1, res.2 + 1)

/-- `extractKeypoints`: without an API credential the extractor
short-circuits to the empty result (0 calls); otherwise it runs
`minRounds = Math.max(1, maxRounds)` rounds starting from the empty
running result. -/
def extractKeypoints (hasApiKey : Bool) (rounds : Nat → Option RoundResult)
    (maxRounds : Int) : ExtractionResult × Nat :=
  if !hasApiKey then (emptyResult, 0)
  else
    let minRounds := max 1 maxRounds
    extractRounds rounds 0 minRounds.toNat [] emptyResult

/-! ## Session gate

The persisted state is the content of `.claude/last_session.txt`
(`none` when the file is absent).  `isFirstMessage` trims the stored
content on read; `markSession` writes the session id verbatim. -/

def isFirstMessage (stored : Option String) (sessionId : String) : Bool :=
  match stored with
  | some content => sessionId != String.mk (jsTrim content.data)
  | none => true

def markSession (_stored : Option String) (sessionId : String) :
    Option String :=
  some sessionId

def clearSession (_stored : Option String) : Option String := none

/-! ## `formatPlaybook`

`loadTemplate('playbook.txt')` returns the file content, or the empty
string when the file is missing or unreadable; the loaded template is
passed here as the `template` argument. -/

def formatPlaybook (template : String) (playbook : Playbook) : String :=
  let keyPoints := playbook.key_points
  if keyPoints.length = 0 then ""
  else
    let keyPointsText :=
      String.intercalate "\n" (keyPoints.map (fun kp => "- " ++ kp.text))
    String.mk (replaceOnce "{key_points}".data keyPointsText.data template.data)

/-! ## Lemmas about the string primitives -/

theorem digitChar_isDigit (d : Nat) (h : d < 10) :
    isDigitChar (digitChar d) = true := by
  interval_cases d <;> decide

theorem digitToNat_digitChar (d : Nat) (h : d < 10) :
    digitToNat (digitChar d) = d := by
  interval_cases d <;> decide

theorem parseDigitsVal_append_singleton (l : List Char) (c : Char) :
    parseDigitsVal (l ++ [c]) = parseDigitsVal l * 10 + digitToNat c := by
  simp [parseDigitsVal, List.foldl_append]

theorem decReprAux_digits (fuel : Nat) :
    ∀ n, n < fuel → ∀ c ∈ decReprAux fuel n, isDigitChar c = true := by
  induction fuel with
  | zero => intro n hn; omega
  | succ fuel ih =>
      intro n hn c hc
      rw [decReprAux] at hc
      by_cases h10 : n < 10
      · rw [if_pos h10] at hc
        simp only [List.mem_singleton] at hc
        subst hc
        exact digitChar_isDigit n h10
      · rw [if_neg h10] at hc
        have hdiv : n / 10 < fuel := by
          have := Nat.div_lt_self (n := n) (k := 10) (by omega) (by omega)
          omega
        rcases List.mem_append.mp hc with h | h
        · exact ih (n / 10) hdiv c h
        · simp only [List.mem_singleton] at h
          subst h
          exact digitChar_isDigit _ (Nat.mod_lt _ (by omega))

theorem decReprAux_val (fuel : Nat) :
    ∀ n, n < fuel → parseDigitsVal (decReprAux fuel n) = n := by
  induction fuel with
  | zero => intro n hn; omega
  | succ fuel ih =>
      intro n hn
      rw [decReprAux]
      by_cases h10 : n < 10
      · rw [if_pos h10]
        simp [parseDigitsVal, digitToNat_digitChar n h10]
      · rw [if_neg h10]
        have hdiv : n / 10 < fuel := by
          have := Nat.div_lt_self (n := n) (k := 10) (by omega) (by omega)
          omega
        rw [parseDigitsVal_append_singleton, ih (n / 10) hdiv,
          digitToNat_digitChar _ (Nat.mod_lt _ (by omega))]
        omega

theorem decRepr_digits (n : Nat) : ∀ c ∈ decRepr n, isDigitChar c = true :=
  decReprAux_digits (n + 1) n (Nat.lt_succ_self n)

theorem decRepr_val (n : Nat) : parseDigitsVal (decRepr n) = n :=
  decReprAux_val (n + 1) n (Nat.lt_succ_self n)

theorem padStart3_digits (l : List Char) (h : ∀ c ∈ l, isDigitChar c = true) :
    ∀ c ∈ padStart3 l, isDigitChar c = true := by
  intro c hc
  unfold padStart3 at hc
  split at hc
  · exact h c hc
  · rcases List.mem_append.mp hc with hr | hl
    · have := List.eq_of_mem_replicate hr
      subst this; decide
    · exact h c hl

theorem foldl_parse_replicate_zero (k : Nat) :
    List.foldl (fun a c => a * 10 + digitToNat c) 0 (List.replicate k '0') = 0 := by
  induction k with
  | zero => rfl
  | succ k ih => simpa [List.replicate_succ, digitToNat] using ih

theorem padStart3_val (l : List Char) :
    parseDigitsVal (padStart3 l) = parseDigitsVal l := by
  unfold padStart3
  split
  · rfl
  · simp [parseDigitsVal, List.foldl_append, foldl_parse_replicate_zero]

theorem padStart3_length_pos (l : List Char) : 0 < (padStart3 l).length := by
  unfold padStart3
  split
  · omega
  · simp only [List.length_append, List.length_replicate]
    omega

theorem padStart3_ne_nil (l : List Char) : padStart3 l ≠ [] := by
  intro h
  have := padStart3_length_pos l
  rw [h] at this
  simp at this

theorem space_toNat_lt (c : Char) (h : isJsSpace c = true) : c.toNat < 48 := by
  simp only [isJsSpace, Bool.or_eq_true, beq_iff_eq] at h
  rcases h with ((((rfl | rfl) | rfl) | rfl) | rfl) | rfl <;> decide

theorem isDigitChar_toNat (c : Char) (h : isDigitChar c = true) :
    48 ≤ c.toNat ∧ c.toNat ≤ 57 := by
  simpa [isDigitChar] using h

theorem digit_not_space (c : Char) (h : isDigitChar c = true) :
    isJsSpace c = false := by
  cases hs : isJsSpace c
  · rfl
  · have h1 := space_toNat_lt c hs
    have h2 := isDigitChar_toNat c h
    omega

theorem digit_ne_underscore (c : Char) (h : isDigitChar c = true) :
    c ≠ '_' := by
  rintro rfl
  exact absurd h (by decide)

theorem digit_ne_minus (c : Char) (h : isDigitChar c = true) : c ≠ '-' := by
  rintro rfl
  exact absurd h (by decide)

theorem digit_ne_plus (c : Char) (h : isDigitChar c = true) : c ≠ '+' := by
  rintro rfl
  exact absurd h (by decide)

theorem splitAux_no_sep (sep : Char) :
    ∀ (l acc : List Char), (∀ c ∈ l, c ≠ sep) →
      splitAux sep l acc = [acc.reverse ++ l] := by
  intro l
  induction l with
  | nil => intro acc _; simp [splitAux]
  | cons c cs ih =>
      intro acc h
      rw [splitAux, if_neg (h c (List.mem_cons_self c cs))]
      rw [ih (c :: acc) (fun x hx => h x (List.mem_cons_of_mem c hx))]
      simp

theorem jsSplit_kpt (digits : List Char) (h : ∀ c ∈ digits, c ≠ '_') :
    jsSplit '_' ('k' :: 'p' :: 't' :: '_' :: digits) = [['k', 'p', 't'], digits] := by
  unfold jsSplit
  rw [splitAux, if_neg (by decide), splitAux, if_neg (by decide),
    splitAux, if_neg (by decide), splitAux, if_pos rfl,
    splitAux_no_sep '_' digits [] h]
  rfl

theorem flRound_of_le (n : Nat) (h : n ≤ 2 ^ 53) : flRound n = n := by
  rw [flRound, if_pos h]

theorem jsParseInt_all_digits (l : List Char) (hne : l ≠ [])
    (hd : ∀ c ∈ l, isDigitChar c = true) :
    jsParseInt l = some ((flRound (parseDigitsVal l) : Nat) : Int) := by
  cases l with
  | nil => exact absurd rfl hne
  | cons c cs =>
      have hc : isDigitChar c = true := hd c (List.mem_cons_self c cs)
      rw [jsParseInt]
      rw [List.dropWhile_cons, if_neg (by simp [digit_not_space c hc])]
      rw [jsParseIntAfterTrim]
      rw [if_neg (digit_ne_minus c hc), if_neg (digit_ne_plus c hc)]
      rw [parseUnsignedDigits]
      simp only [List.takeWhile_eq_self_iff.mpr hd]
      rw [if_neg hne]
      rfl

theorem isPrefixOf_append_self (l t : List Char) :
    l.isPrefixOf (l ++ t) = true :=
  List.isPrefixOf_iff_prefix.mpr (List.prefix_append l t)

/-! ## `generateKeypointName` never collides with an existing name -/

theorem le_foldl_maxKpt :
    ∀ (l : List String) (acc : Int), acc ≤ l.foldl maxKptStep acc := by
  intro l
  induction l with
  | nil => intro acc; exact le_refl acc
  | cons x xs ih =>
      intro acc
      refine le_trans ?_ (ih (maxKptStep acc x))
      unfold maxKptStep
      split
      · split
        · exact le_max_left _ _
        · exact le_refl acc
      · exact le_refl acc

theorem mem_foldl_maxKpt :
    ∀ (l : List String) (acc : Int) (name : String) (v : Int),
      name ∈ l → strStartsWith name "kpt_" = true →
      kpParsedNum name = some v → v ≤ l.foldl maxKptStep acc := by
  intro l
  induction l with
  | nil => intro acc name v h; exact absurd h (List.not_mem_nil name)
  | cons x xs ih =>
      intro acc name v hmem hpfx hparse
      rcases List.mem_cons.mp hmem with rfl | hmem'
      · refine le_trans ?_ (le_foldl_maxKpt xs (maxKptStep acc name))
        unfold maxKptStep
        rw [if_pos hpfx, hparse]
        exact le_max_right acc v
      · exact ih (maxKptStep acc x) name v hmem' hpfx hparse

theorem maxKptNum_nonneg (names : List String) : 0 ≤ maxKptNum names :=
  le_foldl_maxKpt names 0

theorem generateKeypointName_spec (names : List String)
    (hb : maxKptNum names + 1 ≤ 2 ^ 53) :
    strStartsWith (generateKeypointName names) "kpt_" = true
    ∧ kpParsedNum (generateKeypointName names) = some (maxKptNum names + 1) := by
  have hm : 0 ≤ maxKptNum names := maxKptNum_nonneg names
  set m := maxKptNum names with hmdef
  have hfl : flRound (m + 1).toNat = (m + 1).toNat :=
    flRound_of_le _ (by omega)
  set D := padStart3 (decRepr (flRound (m + 1).toNat)) with hD
  have hDdig : ∀ c ∈ D, isDigitChar c = true :=
    padStart3_digits _ (decRepr_digits (flRound (m + 1).toNat))
  have hDne : D ≠ [] := padStart3_ne_nil _
  have hDval : parseDigitsVal D = (m + 1).toNat := by
    rw [hD, padStart3_val, decRepr_val, hfl]
  have hdata : (generateKeypointName names).data = 'k' :: 'p' :: 't' :: '_' :: D := by
    rw [generateKeypointName]
    rfl
  have hpfx : strStartsWith (generateKeypointName names) "kpt_" = true := by
    rw [strStartsWith, hdata]
    exact isPrefixOf_append_self "kpt_".data D
  refine ⟨hpfx, ?_⟩
  rw [kpParsedNum, hdata,
    jsSplit_kpt D (fun c hc => digit_ne_underscore c (hDdig c hc))]
  simp only [List.getD, List.get?, Option.getD_some]
  rw [jsParseInt_all_digits D hDne hDdig, hDval, hfl,
    Int.toNat_of_nonneg (by omega)]

theorem generateKeypointName_not_mem (names : List String)
    (hb : maxKptNum names + 1 ≤ 2 ^ 53) :
    generateKeypointName names ∉ names := by
  intro hmem
  obtain ⟨hpfx, hparse⟩ := generateKeypointName_spec names hb
  have hle : maxKptNum names + 1 ≤ maxKptNum names :=
    mem_foldl_maxKpt names 0 _ (maxKptNum names + 1) hmem hpfx hparse
  omega

theorem maxKptNum_append_gen (names : List String)
    (hb : maxKptNum names + 1 ≤ 2 ^ 53) :
    maxKptNum (names ++ [generateKeypointName names]) = maxKptNum names + 1 := by
  obtain ⟨hpfx, hparse⟩ := generateKeypointName_spec names hb
  rw [maxKptNum, List.foldl_append]
  simp only [List.foldl_cons, List.foldl_nil]
  have hnn : 0 ≤ maxKptNum names := maxKptNum_nonneg names
  show maxKptStep (maxKptNum names) (generateKeypointName names) = _
  simp only [maxKptStep, if_pos hpfx, hparse]
  exact max_eq_right (by omega)

theorem foldl_maxKpt_le (l : List String) :
    ∀ (acc B : Int), acc ≤ B →
      (∀ name ∈ l, ∀ v : Int, strStartsWith name "kpt_" = true →
        kpParsedNum name = some v → v ≤ B) →
      l.foldl maxKptStep acc ≤ B := by
  induction l with
  | nil => intro acc B h _; exact h
  | cons x xs ih =>
      intro acc B hacc hmem
      rw [List.foldl_cons]
      refine ih _ B ?_
        (fun name hn v hp hq => hmem name (List.mem_cons_of_mem x hn) v hp hq)
      by_cases hs : strStartsWith x "kpt_" = true
      · cases hv : kpParsedNum x with
        | none => simpa [maxKptStep, if_pos hs, hv] using hacc
        | some v =>
            simp only [maxKptStep, if_pos hs, hv]
            exact max_le hacc (hmem x (List.mem_cons_self x xs) v hs hv)
      · simpa [maxKptStep, if_neg hs] using hacc

theorem maxKptNum_le_of_subset (l l' : List String)
    (h : ∀ x ∈ l', x ∈ l) : maxKptNum l' ≤ maxKptNum l := by
  refine foldl_maxKpt_le l' 0 (maxKptNum l) (maxKptNum_nonneg l) ?_
  intro name hn v hp hq
  exact mem_foldl_maxKpt l 0 name v (h name hn) hp hq

/-! ## Lemmas about the merge/scoring engine -/

theorem scoreOrZero_eq (s : Int) : scoreOrZero s = s := by
  unfold scoreOrZero
  split
  · omega
  · rfl

theorem insertLoop_map_text (ts : List String) :
    ∀ (kps : List KeyPoint) (names texts : List String),
      (insertLoop kps names texts ts).map KeyPoint.text
        = kps.map KeyPoint.text
          ++ ts.filter (fun t => t != "" && !(texts.contains t)) := by
  induction ts with
  | nil => intro kps names texts; simp [insertLoop]
  | cons t ts ih =>
      intro kps names texts
      rw [insertLoop]
      by_cases hp : (t != "" && !(texts.contains t)) = true
      · rw [if_pos hp, ih, List.filter_cons, if_pos hp]
        simp
      · rw [if_neg hp, ih, List.filter_cons, if_neg hp]

theorem insertLoop_names_nodup_bound (ts : List String) :
    ∀ (kps : List KeyPoint) (names texts : List String),
      names = kps.map KeyPoint.name → names.Nodup →
      maxKptNum names + (ts.length : Int) ≤ 2 ^ 53 →
      ((insertLoop kps names texts ts).map KeyPoint.name).Nodup
        ∧ maxKptNum ((insertLoop kps names texts ts).map KeyPoint.name)
            ≤ maxKptNum names + (ts.length : Int) := by
  induction ts with
  | nil =>
      intro kps names texts heq hnd _
      rw [insertLoop, ← heq]
      exact ⟨hnd, by simp⟩
  | cons t ts ih =>
      intro kps names texts heq hnd hb
      rw [List.length_cons] at hb
      push_cast at hb
      rw [insertLoop]
      by_cases hp : (t != "" && !(texts.contains t)) = true
      · rw [if_pos hp]
        have hlen : (0 : Int) ≤ (ts.length : Int) := Int.natCast_nonneg _
        have h1 : maxKptNum names + 1 ≤ 2 ^ 53 := by omega
        have hmax : maxKptNum (names ++ [generateKeypointName names])
            = maxKptNum names + 1 := maxKptNum_append_gen names h1
        have heq' : names ++ [generateKeypointName names]
            = (kps ++ [(⟨generateKeypointName names, t, 0⟩ : KeyPoint)]).map
                KeyPoint.name := by
          rw [List.map_append, ← heq]
          rfl
        have hnd' : (names ++ [generateKeypointName names]).Nodup := by
          rw [List.nodup_append]
          refine ⟨hnd, List.nodup_singleton _, ?_⟩
          rw [List.disjoint_singleton]
          exact generateKeypointName_not_mem names h1
        obtain ⟨hn2, hm2⟩ := ih _ _ texts heq' hnd' (by rw [hmax]; omega)
        refine ⟨hn2, ?_⟩
        rw [hmax] at hm2
        rw [List.length_cons]
        push_cast
        omega
      · rw [if_neg hp]
        have hlen : (0 : Int) ≤ (ts.length : Int) := Int.natCast_nonneg _
        obtain ⟨hn2, hm2⟩ := ih kps names texts heq hnd (by omega)
        refine ⟨hn2, ?_⟩
        rw [List.length_cons]
        push_cast
        omega

theorem updateFirst_map {β : Type} (name : String) (f : KeyPoint → KeyPoint)
    (g : KeyPoint → β) (hf : ∀ kp, g (f kp) = g kp) :
    ∀ kps : List KeyPoint, (updateFirst name f kps).map g = kps.map g := by
  intro kps
  induction kps with
  | nil => rfl
  | cons kp rest ih =>
      rw [updateFirst]
      split
      · simp [hf]
      · simp [ih]

theorem updateLast_map {β : Type} (name : String) (f : KeyPoint → KeyPoint)
    (g : KeyPoint → β) (hf : ∀ kp, g (f kp) = g kp)
    (kps : List KeyPoint) : (updateLast name f kps).map g = kps.map g := by
  rw [updateLast, List.map_reverse, updateFirst_map name f g hf,
    List.map_reverse, List.reverse_reverse]

theorem applyEvaluation_map_name (kps : List KeyPoint) (e : Evaluation) :
    (applyEvaluation kps e).map KeyPoint.name = kps.map KeyPoint.name := by
  simp only [applyEvaluation]
  split
  · refine updateLast_map e.name _ KeyPoint.name (fun kp => ?_) kps
    rfl
  · rfl

theorem applyEvaluation_map_text (kps : List KeyPoint) (e : Evaluation) :
    (applyEvaluation kps e).map KeyPoint.text = kps.map KeyPoint.text := by
  simp only [applyEvaluation]
  split
  · refine updateLast_map e.name _ KeyPoint.text (fun kp => ?_) kps
    rfl
  · rfl

theorem applyEvaluations_map_name (evals : List Evaluation) :
    ∀ kps : List KeyPoint,
      (applyEvaluations kps evals).map KeyPoint.name = kps.map KeyPoint.name := by
  induction evals with
  | nil => intro kps; rfl
  | cons e evals ih =>
      intro kps
      rw [applyEvaluations, List.foldl_cons]
      rw [show List.foldl applyEvaluation (applyEvaluation kps e) evals
            = applyEvaluations (applyEvaluation kps e) evals from rfl]
      rw [ih, applyEvaluation_map_name]

theorem applyEvaluations_map_text (evals : List Evaluation) :
    ∀ kps : List KeyPoint,
      (applyEvaluations kps evals).map KeyPoint.text = kps.map KeyPoint.text := by
  induction evals with
  | nil => intro kps; rfl
  | cons e evals ih =>
      intro kps
      rw [applyEvaluations, List.foldl_cons]
      rw [show List.foldl applyEvaluation (applyEvaluation kps e) evals
            = applyEvaluations (applyEvaluation kps e) evals from rfl]
      rw [ih, applyEvaluation_map_text]

theorem mergeAndScore_map_text (pb : Playbook) (er : ExtractionResult) :
    (mergeAndScore pb er).map KeyPoint.text
      = pb.key_points.map KeyPoint.text
        ++ er.new_key_points.filter
            (fun t => t != "" && !((pb.key_points.map KeyPoint.text).contains t)) := by
  rw [mergeAndScore, applyEvaluations_map_text, insertLoop_map_text]

theorem mergeAndScore_map_name (pb : Playbook) (er : ExtractionResult) :
    (mergeAndScore pb er).map KeyPoint.name
      = (insertLoop pb.key_points (pb.key_points.map KeyPoint.name)
          (pb.key_points.map KeyPoint.text) er.new_key_points).map KeyPoint.name := by
  rw [mergeAndScore, applyEvaluations_map_name]

theorem updatePlaybookData_names_nodup_bound (pb : Playbook) (er : ExtractionResult)
    (h : (pb.key_points.map KeyPoint.name).Nodup)
    (hb : maxKptNum (pb.key_points.map KeyPoint.name)
        + (er.new_key_points.length : Int) ≤ 2 ^ 53) :
    (((updatePlaybookData pb er).key_points).map KeyPoint.name).Nodup
    ∧ maxKptNum (((updatePlaybookData pb er).key_points).map KeyPoint.name)
        ≤ maxKptNum (pb.key_points.map KeyPoint.name)
          + (er.new_key_points.length : Int) := by
  obtain ⟨hn, hm⟩ :=
    insertLoop_names_nodup_bound er.new_key_points pb.key_points _ _ rfl h hb
  constructor
  · rw [updatePlaybookData]
    refine List.Nodup.sublist
      (List.Sublist.map KeyPoint.name (List.filter_sublist _)) ?_
    rw [mergeAndScore_map_name]
    exact hn
  · have hsub : ∀ x ∈ ((updatePlaybookData pb er).key_points).map KeyPoint.name,
        x ∈ (mergeAndScore pb er).map KeyPoint.name := by
      intro x hx
      simp only [updatePlaybookData, List.mem_map] at hx ⊢
      obtain ⟨kp, hkp, rfl⟩ := hx
      exact ⟨kp, (List.mem_filter.mp hkp).1, rfl⟩
    refine le_trans (maxKptNum_le_of_subset _ _ hsub) ?_
    rw [mergeAndScore_map_name]
    exact hm

theorem foldl_updatePlaybook_names_nodup (ops : List ExtractionResult) :
    ∀ pb : Playbook,
      (pb.key_points.map KeyPoint.name).Nodup →
      maxKptNum (pb.key_points.map KeyPoint.name)
        + (((ops.map (fun er => er.new_key_points.length)).sum : Nat) : Int) ≤ 2 ^ 53 →
      (((ops.foldl updatePlaybookData pb).key_points).map KeyPoint.name).Nodup := by
  induction ops with
  | nil => intro pb h _; exact h
  | cons er ops ih =>
      intro pb h hb
      rw [List.map_cons, List.sum_cons] at hb
      obtain ⟨hn1, hm1⟩ := updatePlaybookData_names_nodup_bound pb er h (by omega)
      rw [List.foldl_cons]
      exact ih _ hn1 (by omega)

/-! ## The evaluation step as a pointwise map (distinct names) -/

theorem extractRounds_last (rounds : Nat → Option RoundResult) (k : Nat)
    (ins : List String) (fr : ExtractionResult) (r : RoundResult)
    (h : rounds k = some r) :
    extractRounds rounds k 1 ins fr = (applyRoundResult fr r, 1) := by
  show extractRounds rounds k (0 + 1) ins fr = _
  rw [extractRounds, h]
  dsimp only
  split
  · rfl
  · rfl

theorem extractRounds_fail_late (rounds : Nat → Option RoundResult) (k rem : Nat)
    (ins : List String) (fr : ExtractionResult)
    (hk : 0 < k) (h : rounds k = none) :
    extractRounds rounds k (rem + 1) ins fr = (fr, 1) := by
  rw [extractRounds, h]
  dsimp only
  exact if_neg (by omega)

theorem extractRounds_converged (rounds : Nat → Option RoundResult) (k rem : Nat)
    (ins : List String) (fr : ExtractionResult) (r : RoundResult)
    (hk : 0 < k) (h : rounds k = some r)
    (hc : r.found_root_cause = true ∨ r.no_new_insights = true ∨
      r.insights_depth = some "sufficient") :
    extractRounds rounds k (rem + 1) ins fr = (applyRoundResult fr r, 1) := by
  rw [extractRounds, h]
  have hcv : roundConverged k r = true := by
    rw [roundConverged]
    rcases hc with hc | hc | hc
    · simp [hc]
    · simp [hc]
    · simp [hc, hk]
  dsimp only
  rw [if_pos (by simp [hcv, hk])]

theorem extractRounds_calls_pos (rounds : Nat → Option RoundResult)
    (k rem : Nat) (ins : List String) (fr : ExtractionResult) :
    1 ≤ (extractRounds rounds k (rem + 1) ins fr).2 := by
  rw [extractRounds]
  cases h : rounds k with
  | none =>
      dsimp only
      split
      · exact le_refl 1
      · exact le_refl 1
  | some r =>
      dsimp only
      split
      · exact le_refl 1
      · simp

theorem extractRounds_calls_le (rounds : Nat → Option RoundResult) :
    ∀ (rem k : Nat) (ins : List String) (fr : ExtractionResult),
      (extractRounds rounds k rem ins fr).2 ≤ rem := by
  intro rem
  induction rem with
  | zero => intro k ins fr; exact le_refl 0
  | succ rem ih =>
      intro k ins fr
      rw [extractRounds]
      cases h : rounds k with
      | none =>
          dsimp only
          split
          · omega
          · omega
      | some r =>
          dsimp only
          split
          · omega
          · have := ih (k + 1) (ins ++ r.insights) (applyRoundResult fr r)
            simpa using Nat.add_le_add_right this 1

theorem minRounds_toNat_succ (maxRounds : Int) :
    ∃ t : Nat, (max 1 maxRounds).toNat = t + 1 := by
  have h1 : (1 : Int) ≤ max 1 maxRounds := le_max_left 1 maxRounds
  refine ⟨(max 1 maxRounds).toNat - 1, ?_⟩
  omega

/-! ## Claim theorems -/

/-- C1: `updatePlaybookData` prunes exactly the key points whose score
after the evaluation step is ≤ -5 and keeps those strictly greater than
-5; a key point at score -4 survives and one at -5 is removed; a key
point at score 0 receiving one "harmful" evaluation per call survives
the first call at -3 and is removed by the second call at -6. -/
theorem claim1_prune_threshold :
    (∀ (pb : Playbook) (er : ExtractionResult) (kp : KeyPoint),
        kp ∈ (updatePlaybookData pb er).key_points
          ↔ kp ∈ mergeAndScore pb er ∧ -5 < kp.score)
    ∧ updatePlaybookData ⟨"1.0", none, [⟨"kpt_001", "a", -4⟩]⟩ ⟨[], []⟩
        = ⟨"1.0", none, [⟨"kpt_001", "a", -4⟩]⟩
    ∧ updatePlaybookData ⟨"1.0", none, [⟨"kpt_001", "a", -5⟩]⟩ ⟨[], []⟩
        = ⟨"1.0", none, []⟩
    ∧ updatePlaybookData ⟨"1.0", none, [⟨"kpt_001", "L", 0⟩]⟩
        ⟨[], [⟨"kpt_001", "harmful"⟩]⟩
        = ⟨"1.0", none, [⟨"kpt_001", "L", -3⟩]⟩
    ∧ updatePlaybookData ⟨"1.0", none, [⟨"kpt_001", "L", -3⟩]⟩
        ⟨[], [⟨"kpt_001", "harmful"⟩]⟩
        = ⟨"1.0", none, []⟩ := by
  refine ⟨?_, by decide, by decide, by decide, by decide⟩
  intro pb er kp
  simp [updatePlaybookData, List.mem_filter, scoreOrZero_eq]

/-- C3 counterexample: starting from the empty playbook (whose texts are
trivially pairwise distinct), an extraction result with
`new_key_points = ["a", "a"]` produces a playbook with two key points
both carrying text "a" — `existingTexts` is snapshotted before the
insertion loop and never extended, so intra-batch duplicates are not
deduplicated and the claim "no duplicate text entry is ever created"
fails. -/
theorem claim3_counterexample :
    (((⟨"1.0", none, []⟩ : Playbook).key_points).map KeyPoint.text).Nodup
    ∧ ¬ ((((updatePlaybookData ⟨"1.0", none, []⟩
          ⟨["a", "a"], []⟩).key_points).map KeyPoint.text).Nodup) := by
  exact ⟨by decide, by decide⟩

/-- C3 amended: new texts are deduplicated only against the texts
existing before the call, so pairwise distinctness of the result's
texts is guaranteed when additionally the submitted `new_key_points`
are themselves pairwise distinct. -/
theorem claim3_text_dedup_amended :
    ∀ (pb : Playbook) (er : ExtractionResult),
      (pb.key_points.map KeyPoint.text).Nodup →
      er.new_key_points.Nodup →
      (((updatePlaybookData pb er).key_points).map KeyPoint.text).Nodup := by
  intro pb er h1 h2
  rw [updatePlaybookData]
  apply List.Nodup.sublist (List.Sublist.map KeyPoint.text (List.filter_sublist _))
  rw [mergeAndScore_map_text, List.nodup_append]
  refine ⟨h1, List.Nodup.filter _ h2, ?_⟩
  intro x hx hxf
  rw [List.mem_filter] at hxf
  obtain ⟨-, hp⟩ := hxf
  rw [Bool.and_eq_true] at hp
  have hc : x ∉ pb.key_points.map KeyPoint.text := by simpa using hp.2
  exact hc hx

/-- Witness for C3 amended at a concrete playbook and batch. -/
theorem claim3_text_dedup_amended_witness :
    (((updatePlaybookData ⟨"1.0", none, [⟨"kpt_001", "x", 0⟩]⟩
        ⟨["a", "b"], []⟩).key_points).map KeyPoint.text).Nodup :=
  claim3_text_dedup_amended _ _ (by decide) (by decide)

/-- C6 counterexample: at an existing name `kpt_9007199254740992`
(suffix `2^53`), the float64 increment is lossy — `maxNum + 1 === maxNum`
— so `generateKeypointName` returns the existing name and an apply call
inserting one new key point produces duplicate names from a playbook
whose names were pairwise distinct. -/
theorem claim6_counterexample :
    generateKeypointName ["kpt_9007199254740992"] = "kpt_9007199254740992"
    ∧ ((Playbook.key_points
          ⟨"1.0", none, [⟨"kpt_9007199254740992", "old", 0⟩]⟩).map
            KeyPoint.name).Nodup
    ∧ ¬ ((((updatePlaybookData
          ⟨"1.0", none, [⟨"kpt_9007199254740992", "old", 0⟩]⟩
          ⟨["new"], []⟩).key_points).map KeyPoint.name).Nodup) := by
  exact ⟨by decide, by decide, by decide⟩

/-- C6 amended: as long as the numeric suffixes stay in the exactly
representable float64 range — the maximum existing `kpt_` suffix plus
the number of key points still to be inserted is at most `2^53` — the
generated name parses back to one more than the maximum suffix and
never collides with an existing name, and every sequence of
`updatePlaybookData` operations whose total `new_key_points` count fits
in that headroom keeps all names pairwise distinct; concrete instances
of the zero-padded `kpt_NNN` numbering rule (non-matching names
ignored), including the last exact increment `2^53 - 1 → 2^53`. -/
theorem claim6_name_uniqueness_amended :
    (∀ names : List String, maxKptNum names + 1 ≤ 2 ^ 53 →
        generateKeypointName names ∉ names)
    ∧ (∀ (pb : Playbook) (ops : List ExtractionResult),
        (pb.key_points.map KeyPoint.name).Nodup →
        maxKptNum (pb.key_points.map KeyPoint.name)
          + (((ops.map (fun er => er.new_key_points.length)).sum : Nat) : Int)
            ≤ 2 ^ 53 →
        (((ops.foldl updatePlaybookData pb).key_points).map KeyPoint.name).Nodup)
    ∧ generateKeypointName [] = "kpt_001"
    ∧ generateKeypointName ["kpt_007", "other"] = "kpt_008"
    ∧ generateKeypointName ["kpt_012_note", "zzz"] = "kpt_013"
    ∧ generateKeypointName ["kpt_999"] = "kpt_1000"
    ∧ generateKeypointName ["kpt_9007199254740991"] = "kpt_9007199254740992" := by
  exact ⟨generateKeypointName_not_mem,
    fun pb ops h hb => foldl_updatePlaybook_names_nodup ops pb h hb,
    by decide, by decide, by decide, by decide, by decide⟩

/-- Witness for C6 amended at a concrete name list and a concrete
playbook and operation sequence, with the headroom hypotheses
discharged by evaluation. -/
theorem claim6_name_uniqueness_amended_witness :
    generateKeypointName ["kpt_005"] ∉ ["kpt_005"]
    ∧ ((([(⟨["learn A"], []⟩ : ExtractionResult),
        ⟨["learn B"], [⟨"kpt_001", "helpful"⟩]⟩].foldl updatePlaybookData
        ⟨"1.0", none, [⟨"kpt_001", "base", 0⟩]⟩).key_points).map
          KeyPoint.name).Nodup :=
  ⟨claim6_name_uniqueness_amended.1 ["kpt_005"] (by decide),
   claim6_name_uniqueness_amended.2.1 _ _ (by decide) (by decide)⟩

/-- Mocked round responses for the C2 counterexample: round 0 provides
`new_key_points` and `evaluations`, round 1 omits `new_key_points`. -/
def c2rounds : Nat → Option RoundResult := fun i =>
  if i = 0 then some ⟨false, false, none, [], some ["a"], some []⟩
  else some ⟨false, false, none, [], none, some [⟨"n", "helpful"⟩]⟩

/-- C2 counterexample: with two successful rounds where round 1's parsed
output has no `new_key_points` field, the final result keeps round 0's
`new_key_points = ["a"]` while taking round 1's `evaluations` — a
field-level merge across rounds, so the running result after the last
round does not equal that round's structured output. -/
theorem claim2_counterexample :
    extractKeypoints true c2rounds 2
      = (⟨["a"], [⟨"n", "helpful"⟩]⟩, 2)
    ∧ c2rounds 1 = some ⟨false, false, none, [], none, some [⟨"n", "helpful"⟩]⟩
    ∧ (["a"] : List String) ≠ [] := by
  exact ⟨by decide, by decide, by decide⟩

/-- C2 amended: each round overwrites the running result field-wise —
a field present in the round's parsed output replaces the accumulated
value outright (so a round providing both fields fully overwrites the
running result, whatever was accumulated), while an absent field
retains the earlier rounds' value. -/
theorem claim2_overwrite_amended :
    ∀ (rounds : Nat → Option RoundResult) (k : Nat) (ins : List String)
      (fr : ExtractionResult) (r : RoundResult),
      rounds k = some r →
      ((∀ a b, r.new_key_points = some a → r.evaluations = some b →
          extractRounds rounds k 1 ins fr = (⟨a, b⟩, 1))
        ∧ (r.new_key_points = none →
            (extractRounds rounds k 1 ins fr).1.new_key_points
              = fr.new_key_points)
        ∧ (r.evaluations = none →
            (extractRounds rounds k 1 ins fr).1.evaluations
              = fr.evaluations)) := by
  intro rounds k ins fr r h
  rw [extractRounds_last rounds k ins fr r h]
  refine ⟨?_, ?_, ?_⟩
  · intro a b ha hb
    rw [applyRoundResult, ha, hb]
    rfl
  · intro ha
    rw [applyRoundResult, ha]
    rfl
  · intro hb
    rw [applyRoundResult, hb]
    rfl

/-- Witness for C2 amended: a last round providing both fields fully
overwrites a nonempty accumulated result. -/
theorem claim2_overwrite_amended_witness :
    extractRounds (fun _ => some ⟨false, false, none, [], some ["w"], some []⟩)
        0 1 [] ⟨["old"], [⟨"m", "harmful"⟩]⟩
      = (⟨["w"], []⟩, 1) :=
  (claim2_overwrite_amended
      (fun _ => some ⟨false, false, none, [], some ["w"], some []⟩)
      0 [] ⟨["old"], [⟨"m", "harmful"⟩]⟩ _ rfl).1 ["w"] [] rfl rfl

/-- C5: a remote-call failure on round 0 makes `extractKeypoints` return
the empty result after exactly one call, whatever the configured round
count; a failure on any later round stops the loop with the result
accumulated so far (again costing exactly one further call). -/
theorem claim5_first_round_failure :
    (∀ (rounds : Nat → Option RoundResult) (maxRounds : Int),
        rounds 0 = none →
        extractKeypoints true rounds maxRounds = (emptyResult, 1))
    ∧ (∀ (rounds : Nat → Option RoundResult) (k rem : Nat)
        (ins : List String) (fr : ExtractionResult),
        0 < k → rounds k = none →
        extractRounds rounds k (rem + 1) ins fr = (fr, 1)) := by
  constructor
  · intro rounds maxRounds h
    rw [extractKeypoints]
    dsimp only
    rw [if_neg (by decide)]
    obtain ⟨t, ht⟩ := minRounds_toNat_succ maxRounds
    rw [ht, extractRounds, h]
    dsimp only
    rw [if_pos rfl]
  · exact fun rounds k rem ins fr hk h =>
      extractRounds_fail_late rounds k rem ins fr hk h

/-- Witness for C5 at concrete failing rounds. -/
theorem claim5_first_round_failure_witness :
    extractKeypoints true (fun _ => none) 5 = (emptyResult, 1)
    ∧ extractRounds (fun _ => none) 1 1 [] ⟨["acc"], []⟩ = (⟨["acc"], []⟩, 1) :=
  ⟨claim5_first_round_failure.1 (fun _ => none) 5 rfl,
   claim5_first_round_failure.2 (fun _ => none) 1 0 [] ⟨["acc"], []⟩
     (by decide) rfl⟩

/-- Mocked round responses for the C7 convergence scenario: round 0
reports partial depth, round 1 reports sufficient depth together with
`new_key_points = ["learned Z"]`. -/
def c7rounds : Nat → Option RoundResult := fun i =>
  if i = 0 then some ⟨false, false, some "partial", [], none, none⟩
  else some ⟨false, false, some "sufficient", [], some ["learned Z"], none⟩

/-- C7: on any round after the first whose parsed response signals
`found_root_cause`, `no_new_insights`, or `insights_depth =
"sufficient"`, the loop makes no further call (that round's own fields
are still folded in); in the concrete scenario with `maxRounds = 3`,
partial depth on round 1 and sufficient depth plus
`new_key_points = ["learned Z"]` on round 2, the extractor stops after
2 calls and returns `new_key_points = ["learned Z"]`. -/
theorem claim7_convergence_stops :
    (∀ (rounds : Nat → Option RoundResult) (k rem : Nat)
        (ins : List String) (fr : ExtractionResult) (r : RoundResult),
        0 < k → rounds k = some r →
        (r.found_root_cause = true ∨ r.no_new_insights = true ∨
          r.insights_depth = some "sufficient") →
        extractRounds rounds k (rem + 1) ins fr = (applyRoundResult fr r, 1))
    ∧ extractKeypoints true c7rounds 3 = (⟨["learned Z"], []⟩, 2) := by
  exact ⟨fun rounds k rem ins fr r hk h hc =>
      extractRounds_converged rounds k rem ins fr r hk h hc,
    by decide⟩

/-- Witness for C7's general stopping property at a concrete input. -/
theorem claim7_convergence_stops_witness :
    extractRounds c7rounds 1 2 [] emptyResult = (⟨["learned Z"], []⟩, 1) := by
  rw [claim7_convergence_stops.1 c7rounds 1 1 [] emptyResult
    ⟨false, false, some "sufficient", [], some ["learned Z"], none⟩
    (by decide) rfl (Or.inr (Or.inr rfl))]
  decide

/-- C10: with an API credential present the extractor always makes at
least one call; the loop bound is `max 1 maxRounds` rounds, so a
configured value ≤ 0 yields exactly one call. -/
theorem claim10_at_least_one_round :
    (∀ (rounds : Nat → Option RoundResult) (maxRounds : Int),
        1 ≤ (extractKeypoints true rounds maxRounds).2)
    ∧ (∀ (rounds : Nat → Option RoundResult) (maxRounds : Int),
        maxRounds ≤ 0 → (extractKeypoints true rounds maxRounds).2 = 1)
    ∧ (∀ (rounds : Nat → Option RoundResult) (maxRounds : Int),
        (extractKeypoints true rounds maxRounds).2 ≤ (max 1 maxRounds).toNat) := by
  refine ⟨?_, ?_, ?_⟩
  · intro rounds maxRounds
    rw [extractKeypoints]
    dsimp only
    rw [if_neg (by decide)]
    obtain ⟨t, ht⟩ := minRounds_toNat_succ maxRounds
    rw [ht]
    exact extractRounds_calls_pos rounds 0 t [] emptyResult
  · intro rounds maxRounds h
    have hmax : max 1 maxRounds = 1 := max_eq_left (by omega)
    rw [extractKeypoints]
    dsimp only
    rw [if_neg (by decide)]
    rw [hmax]
    rw [show ((1 : Int).toNat) = 0 + 1 from rfl, extractRounds]
    cases h0 : rounds 0 with
    | none =>
        dsimp only
        rw [if_pos rfl]
    | some r =>
        dsimp only
        rw [if_neg (by simp)]
        rfl
  · intro rounds maxRounds
    rw [extractKeypoints]
    dsimp only
    rw [if_neg (by decide)]
    exact extractRounds_calls_le rounds _ 0 [] emptyResult

/-- Witness for C10's exactly-one-round conjunct at `maxRounds = -3`. -/
theorem claim10_at_least_one_round_witness :
    (extractKeypoints true
        (fun _ => some ⟨false, false, none, [], none, none⟩) (-3)).2 = 1 :=
  claim10_at_least_one_round.2.1 _ (-3) (by decide)

/-- C8 counterexample: `markSession` writes the session id verbatim but
`isFirstMessage` trims the stored token on read, so for a session id
with trailing whitespace `markSession` followed by `isFirstMessage`
returns `true`, not `false`. -/
theorem claim8_counterexample :
    isFirstMessage (markSession none "a ") "a " = true := by decide

/-- C8 amended: for a session id that is unchanged by trimming,
`markSession` then `isFirstMessage` returns `false`; with no persisted
token (initially or after `clearSession`) `isFirstMessage` is `true`;
in general it is `true` exactly when the stored token is absent or its
trimmed content differs from the session id. -/
theorem claim8_session_gate_amended :
    ∀ (stored : Option String) (sessionId : String),
      (String.mk (jsTrim sessionId.data) = sessionId →
        isFirstMessage (markSession stored sessionId) sessionId = false)
      ∧ isFirstMessage none sessionId = true
      ∧ isFirstMessage (clearSession stored) sessionId = true
      ∧ (∀ content : String,
          isFirstMessage (some content) sessionId = true
            ↔ sessionId ≠ String.mk (jsTrim content.data)) := by
  intro stored sessionId
  refine ⟨?_, rfl, rfl, ?_⟩
  · intro h
    rw [markSession, isFirstMessage]
    rw [h]
    exact bne_self_eq_false sessionId
  · intro content
    rw [isFirstMessage]
    exact bne_iff_ne

/-- Witness for C8 amended at concrete session ids. -/
theorem claim8_session_gate_amended_witness :
    isFirstMessage (markSession none "abc") "abc" = false
    ∧ (isFirstMessage (some "x") "abc" = true
        ↔ "abc" ≠ String.mk (jsTrim "x".data)) :=
  ⟨(claim8_session_gate_amended none "abc").1 (by decide),
   (claim8_session_gate_amended (some "x") "abc").2.2.2 "x"⟩

/-- C9: when the loaded context-injection template is the empty string,
`formatPlaybook` returns the empty string for every playbook, including
one that has key points. -/
theorem claim9_empty_template :
    (∀ playbook : Playbook, formatPlaybook "" playbook = "")
    ∧ formatPlaybook "" ⟨"1.0", none, [⟨"kpt_001", "do X", 0⟩]⟩ = "" := by
  refine ⟨?_, by decide⟩
  intro pb
  rw [formatPlaybook]
  dsimp only
  split
  · rfl
  · rw [replaceOnce, if_neg (by decide)]

end ClaudeMemoria
